import Mathlib

/-!
Shallow embedding of the vl-aws-util core (src/download.rs, src/upload.rs,
src/error.rs) and proofs about the spec's claims.

Bytes are modelled as `Nat`, byte buffers as `List Nat`.  `usize` arithmetic
that can wrap is made explicit with `% 2 ^ 64`.  Fallible code returns
`Except`, panics (`assert!`, `unwrap`) are `Option.none`, and the
potentially-nonterminating stream loops take an explicit fuel argument
(`none` on fuel exhaustion).  The opaque S3 store is an oracle parameter.
-/

namespace VlAwsUtil

/-- Modulus of the 64-bit `usize` arithmetic used by the Rust source. -/
def USIZE_MOD : Nat := 2 ^ 64

/-- Wrapping `usize` multiplication. -/
def usizeMul (a b : Nat) : Nat := a * b % USIZE_MOD

/-- Wrapping `usize` subtraction (arguments reduced into range first). -/
def usizeSub (a b : Nat) : Nat := (USIZE_MOD + a % USIZE_MOD - b % USIZE_MOD) % USIZE_MOD

/-- One item delivered by the underlying `ByteStream` (`bytes.try_next()`):
either a byte chunk (`Ok(Some(bytes))`) or a read error (`Err(e)`); the end of
the list models `Ok(None)`. -/
inductive SVEvent : Type
  | chunk (b : List Nat)
  | fail (e : Nat)
deriving DecidableEq

instance {ε α : Type} [DecidableEq ε] [DecidableEq α] : DecidableEq (Except ε α) := fun a b =>
  match a, b with
  | Except.ok x, Except.ok y =>
    if h : x = y then Decidable.isTrue (by rw [h]) else Decidable.isFalse (by simp [h])
  | Except.error x, Except.error y =>
    if h : x = y then Decidable.isTrue (by rw [h]) else Decidable.isFalse (by simp [h])
  | Except.ok _, Except.error _ => Decidable.isFalse (by simp)
  | Except.error _, Except.ok _ => Decidable.isFalse (by simp)

/-- Outcome of driving the `stream_vecs` generator to its end: the yielded
items together with whether the generator terminated normally or hit the
`assert!(buf.is_empty(), "stream ended unexpectedly")` panic. -/
inductive SVOut : Type
  | ended (items : List (Except Nat (List Nat)))
  | panicked (msg : String) (items : List (Except Nat (List Nat)))
deriving DecidableEq

/-- The items a generator outcome yielded. -/
def SVOut.items : SVOut → List (Except Nat (List Nat))
  | SVOut.ended xs => xs
  | SVOut.panicked _ xs => xs

/-- Prepend one yielded item to a generator outcome. -/
def SVOut.consOut (x : Except Nat (List Nat)) : SVOut → SVOut
  | SVOut.ended xs => SVOut.ended (x :: xs)
  | SVOut.panicked m xs => SVOut.panicked m (x :: xs)

/-- Prepend a list of yielded items to a generator outcome. -/
def SVOut.consList (l : List (Except Nat (List Nat))) : SVOut → SVOut
  | SVOut.ended xs => SVOut.ended (l ++ xs)
  | SVOut.panicked m xs => SVOut.panicked m (l ++ xs)

/-- The loop of `stream_vecs` (src/download.rs:59-95).  `buf` is the
accumulation buffer, `count` the optional remaining record count, `events`
the not-yet-pulled items of the underlying byte stream.  Each recursive call
consumes one unit of fuel; `none` is fuel exhaustion (the source loop would
spin forever, which happens for `chunk_size = 0`). -/
def svGo (cs : Nat) : Nat → List Nat → Option Nat → List SVEvent → Option SVOut
  | 0, _, _, _ => none
  | fuel + 1, buf, count, events =>
    if cs ≤ buf.length then
      -- there's already enough data to read the next vec
      match count with
      | none =>
        (svGo cs fuel (buf.drop cs) none events).map (SVOut.consOut (Except.ok (buf.take cs)))
      | some c =>
        if c - 1 = 0 then
          -- count reached zero: break the inner while, then `count == Some(0)` breaks the loop
          some (SVOut.consOut (Except.ok (buf.take cs)) (SVOut.ended []))
        else
          (svGo cs fuel (buf.drop cs) (some (c - 1)) events).map
            (SVOut.consOut (Except.ok (buf.take cs)))
    else if count = some 0 then
      -- no more returning!
      some (SVOut.ended [])
    else
      match events with
      | [] =>
        -- buf better be empty at this point or this is an unexpected eof
        if buf.isEmpty then some (SVOut.ended [])
        else some (SVOut.panicked "stream ended unexpectedly" [])
      | SVEvent.chunk b :: rest => svGo cs fuel (buf ++ b) count rest
      | SVEvent.fail e :: _ => some (SVOut.ended [Except.error e])

/-- `stream_vecs` (src/download.rs:54-96): regroup a byte stream into
`chunk_size`-sized records, optionally bounded to `count` records. -/
def stream_vecs (events : List SVEvent) (chunk_size : Nat) (count : Option Nat)
    (fuel : Nat) : Option SVOut :=
  svGo chunk_size fuel [] count events

/-- Is this stream event a data chunk (as opposed to a read error)? -/
def isChunk : SVEvent → Bool
  | SVEvent.chunk _ => true
  | SVEvent.fail _ => false

/-- All bytes carried by the chunk events of a stream, in order. -/
def flatEvents : List SVEvent → List Nat
  | [] => []
  | SVEvent.chunk b :: rest => b ++ flatEvents rest
  | SVEvent.fail _ :: rest => flatEvents rest

/-- Fuel-driven worker for `chunkList` (structural recursion so that it
computes by `rfl`/`decide`). -/
def chunkListGo : Nat → Nat → List Nat → List (List Nat)
  | 0, _, _ => []
  | fuel + 1, cs, l =>
    if 0 < cs ∧ cs ≤ l.length then l.take cs :: chunkListGo fuel cs (l.drop cs) else []

/-- The list of complete `cs`-byte slices of `l`, in order (any remainder
shorter than `cs` is not included). -/
def chunkList (cs : Nat) (l : List Nat) : List (List Nat) :=
  chunkListGo l.length cs l

/-- `VecStreamError` (src/download.rs:98-104): a record-level byte stream
error, or failure of the initial ranged `get_object` request. -/
inductive VecStreamError : Type
  | byteStreamError (e : Nat)
  | streamInitFailed (e : Nat)
deriving DecidableEq

/-- The `Range` header built by `stream_vecs_from` (src/download.rs:117-123):
`format!("bytes={}-{}", start_pos, end_pos)` when `end_index` is present,
`format!("bytes={}-", start_pos)` otherwise, with `start_pos = start_index *
chunk_size` and `end_pos = end_index * chunk_size - 1` in `usize`
arithmetic. -/
def rangeHeader (start_index : Nat) (end_index : Option Nat) (chunk_size : Nat) : String :=
  match end_index with
  | some e =>
    "bytes=" ++ toString (usizeMul start_index chunk_size) ++ "-"
      ++ toString (usizeSub (usizeMul e chunk_size) 1)
  | none => "bytes=" ++ toString (usizeMul start_index chunk_size) ++ "-"

/-- How the `'inner` loop of `stream_vecs_from` was left. -/
inductive InnerExit : Type
  | cleanEnd
  | retry
  | hardFail
deriving DecidableEq

/-- Result of running the `'inner` loop of `stream_vecs_from` over the items
produced by one `stream_vecs` run. -/
structure InnerRes : Type where
  items : List (Except VecStreamError (List Nat))
  startIndex : Nat
  failureCount : Nat
  exit : InnerExit
deriving DecidableEq

/-- The `'inner` loop of `stream_vecs_from` (src/download.rs:133-157): on a
chunk, reset the failure counter, advance `start_index` and yield it; on an
error, bump the failure counter and either fail permanently (5 consecutive
failures) or break out for a retry; on stream end, finish cleanly. -/
def svfInner : List (Except Nat (List Nat)) → Nat → Nat → InnerRes
  | [], si, fc => ⟨[], si, fc, InnerExit.cleanEnd⟩
  | Except.ok v :: rest, si, _ =>
    let r := svfInner rest (si + 1) 0
    ⟨Except.ok v :: r.items, r.startIndex, r.failureCount, r.exit⟩
  | Except.error e :: _, si, fc =>
    if 5 ≤ fc + 1 then
      ⟨[Except.error (VecStreamError.byteStreamError e)], si, fc + 1, InnerExit.hardFail⟩
    else ⟨[], si, fc + 1, InnerExit.retry⟩

/-- Observable result of a full `stream_vecs_from` run: the yielded items,
the final `start_index` and `failure_count`, and the `Range` headers of the
ranged reads issued, in order. -/
structure SVFResult : Type where
  items : List (Except VecStreamError (List Nat))
  finalStart : Nat
  finalFailures : Nat
  requests : List String
deriving DecidableEq

/-- The `'outer` loop of `stream_vecs_from` (src/download.rs:114-159).
`reads` is the store: given the attempt number and the `Range` header it
returns the body of the ranged read, or an initiation error.  Each outer
iteration consumes one unit of fuel; `none` is fuel exhaustion or a panic of
the inner `stream_vecs`. -/
def svfGo (reads : Nat → String → Except Nat (List SVEvent)) (cs : Nat)
    (end_index : Option Nat) :
    Nat → Nat → Nat → Nat → Option SVFResult
  | 0, _, _, _ => none
  | fuel + 1, attempt, si, fc =>
    let range := rangeHeader si end_index cs
    match reads attempt range with
    | Except.error e =>
      some ⟨[Except.error (VecStreamError.streamInitFailed e)], si, fc, [range]⟩
    | Except.ok events =>
      match svGo cs (fuel + 1) [] (end_index.map fun e => e - si) events with
      | none => none
      | some out =>
        let inner := svfInner out.items si fc
        match inner.exit with
        | InnerExit.hardFail =>
          some ⟨inner.items, inner.startIndex, inner.failureCount, [range]⟩
        | InnerExit.retry =>
          match svfGo reads cs end_index fuel (attempt + 1)
              inner.startIndex inner.failureCount with
          | none => none
          | some rest =>
            some ⟨inner.items ++ rest.items, rest.finalStart,
              rest.finalFailures, range :: rest.requests⟩
        | InnerExit.cleanEnd =>
          match out with
          | SVOut.ended _ =>
            some ⟨inner.items, inner.startIndex, inner.failureCount, [range]⟩
          | SVOut.panicked _ _ => none

/-- `stream_vecs_from` (src/download.rs:106-160): the retrying ranged reader,
started at `start_index` with a fresh failure counter. -/
def stream_vecs_from (reads : Nat → String → Except Nat (List SVEvent)) (start_index : Nat)
    (end_index : Option Nat) (chunk_size : Nat) (fuel : Nat) : Option SVFResult :=
  svfGo reads chunk_size end_index fuel 0 start_index 0

/-- The items the spawned producer task of `concurrent_stream_vecs_from`
pushes into the channel (src/download.rs:171-182): each item of the wrapped
stream wrapped in `Some`, stopping right after the first non-`Ok` item; a
clean end pushes a final `None`. -/
def producerSends : List (Except VecStreamError (List Nat)) →
    List (Option (Except VecStreamError (List Nat)))
  | [] => [none]
  | Except.ok v :: rest => some (Except.ok v) :: producerSends rest
  | Except.error e :: _ => [some (Except.error e)]

/-- The consumer-facing stream of `concurrent_stream_vecs_from`
(src/download.rs:184-186): `take_while(|v| v.is_some()).map(|v| v.unwrap())`
over the channel contents. -/
def consumerItems (sends : List (Option (Except VecStreamError (List Nat)))) :
    List (Except VecStreamError (List Nat)) :=
  (sends.takeWhile Option.isSome).filterMap id

/-- `concurrent_stream_vecs_from` (src/download.rs:162-187): the wrapped
`stream_vecs_from` run through the producer task and the consumer stream. -/
def concurrent_stream_vecs_from (reads : Nat → String → Except Nat (List SVEvent))
    (start_index : Nat) (end_index : Option Nat) (chunk_size : Nat) (fuel : Nat) :
    Option (List (Except VecStreamError (List Nat))) :=
  (stream_vecs_from reads start_index end_index chunk_size fuel).map fun r =>
    consumerItems (producerSends r.items)

/-- The converted `aws_sdk_s3::Error` a `get_object` request can produce:
the `NoSuchKey` variant or any other store error. -/
inductive S3Error : Type
  | noSuchKey (m : Nat)
  | other (m : Nat)
deriving DecidableEq

/-- A successful `get_object` response: the optional `content_length` and
the body stream's items (`Ok(chunk)` or a read error). -/
structure GetObjectOutput : Type where
  content_length : Option Nat
  body : List (Except Nat (List Nat))

/-- The copy loop of `download_vec` (src/download.rs:31-41):
`while let Some(Ok(chunk))` copies each chunk at the running byte offset,
asserting it fits; the loop stops silently at the first non-`Ok` item.
`none` is the assert panic. -/
def copyChunks : List Nat → Nat → List (Except Nat (List Nat)) → Option (List Nat)
  | vec, _, [] => some vec
  | vec, _, Except.error _ :: _ => some vec
  | vec, offset, Except.ok c :: rest =>
    if offset + c.length ≤ vec.length then
      copyChunks (vec.take offset ++ c ++ vec.drop (offset + c.length)) (offset + c.length) rest
    else none

/-- `download_vec` (src/download.rs:14-52) over a response of the store,
for an element type of `size_of_t` bytes.  The element vector is modelled by
its `T::default()`-initialised bytes (all zero).  `none` is a panic
(`unwrap` of a missing length, division by a zero element size, the
alignment assert, or a chunk overflowing the buffer). -/
def download_vec (size_of_t : Nat) (result : Except S3Error GetObjectOutput) :
    Option (Except S3Error (Option (List Nat))) :=
  match result with
  | Except.ok o =>
    match o.content_length with
    | none => none
    | some size =>
      if size_of_t = 0 then none
      else if size % size_of_t = 0 then
        match copyChunks (List.replicate (size / size_of_t * size_of_t) 0) 0 o.body with
        | none => none
        | some vec => some (Except.ok (some vec))
      else none
  | Except.error e =>
    match e with
    | S3Error.noSuchKey _ => some (Except.ok none)
    | _ => some (Except.error e)

/-- `UploadInfo` (src/upload.rs:29-38): the serializable, resumable state of
one multipart upload. -/
structure UploadInfo : Type where
  bucket : String
  key : String
  size_per_upload : Nat
  upload_id : String
  parts : List String
  uploaded_bytes : Nat
deriving DecidableEq

/-- `UploadResult` (src/upload.rs:17-20): what a finished part-upload task
hands back. -/
structure UploadResult : Type where
  bytes_sent : Nat
  e_tag : String
deriving DecidableEq

/-- `Upload` (src/upload.rs:22-27).  `upload_task` holds the value the
in-flight part-upload task will produce when joined (the join handle's
eventual result). -/
structure Upload : Type where
  info : UploadInfo
  data : List Nat
  upload_task : Option (Except Nat UploadResult)
deriving DecidableEq

/-- `Upload::start_part_upload` (src/upload.rs:116-147): assert a full part
is buffered, split it off, number it `parts.len() + 1`, and spawn the part
upload, overwriting `upload_task`.  `oracle part_num body` is the store's
response to `upload_part`.  `none` is the assert panic. -/
def start_part_upload (oracle : Nat → List Nat → Except Nat String) (u : Upload) :
    Option Upload :=
  if u.info.size_per_upload ≤ u.data.length then
    some { u with
      data := u.data.drop u.info.size_per_upload,
      upload_task := some ((oracle (u.info.parts.length + 1)
          (u.data.take u.info.size_per_upload)).map
        fun tag => ⟨(u.data.take u.info.size_per_upload).length, tag⟩) }
  else none

/-- `Upload::finish_part_upload` (src/upload.rs:149-162): take the task out,
join it, and fold its committed byte count and tag into the state; `false`
when no task was in flight. -/
def finish_part_upload (u : Upload) : Except Nat (Upload × Bool) :=
  match u.upload_task with
  | none => Except.ok (u, false)
  | some r =>
    match r with
    | Except.error e => Except.error e
    | Except.ok res =>
      Except.ok ({ u with
        upload_task := none,
        info := { u.info with
          uploaded_bytes := u.info.uploaded_bytes + res.bytes_sent,
          parts := u.info.parts ++ [res.e_tag] } }, true)

/-- The `while self.data.len() >= self.info.size_per_upload` loop of
`Upload::send` (src/upload.rs:170-173), with the source's short-circuit
`something_happened = something_happened || self.finish_part_upload().await?`.
One unit of fuel per iteration; `none` is fuel exhaustion or a panic. -/
def sendLoop (oracle : Nat → List Nat → Except Nat String) :
    Nat → Bool → Upload → Option (Except Nat (Upload × Bool))
  | 0, _, _ => none
  | fuel + 1, sh, u =>
    if u.info.size_per_upload ≤ u.data.length then
      match (if sh then Except.ok (u, true) else finish_part_upload u) with
      | Except.error e => some (Except.error e)
      | Except.ok (u2, sh2) =>
        match start_part_upload oracle u2 with
        | none => none
        | some u3 => sendLoop oracle fuel sh2 u3
    else some (Except.ok (u, sh))

/-- `Upload::send` (src/upload.rs:164-176).  `preFinished` models
`self.upload_task.is_finished()` at the entry check. -/
def send (oracle : Nat → List Nat → Except Nat String) (preFinished : Bool) (u : Upload)
    (d : List Nat) : Option (Except Nat (Upload × Bool)) :=
  match (if (Option.isSome ({ u with data := u.data ++ d } : Upload).upload_task && preFinished)
      then finish_part_upload { u with data := u.data ++ d }
      else Except.ok ({ u with data := u.data ++ d }, false)) with
  | Except.error e => some (Except.error e)
  | Except.ok (u2, sh) => sendLoop oracle (u2.data.length + 1) sh u2

/-- `Upload::send_final` (src/upload.rs:178-203): join any outstanding part,
then, if bytes remain buffered, upload them synchronously as one final part
and append its tag (`uploaded_bytes` is not updated here, as in the
source). -/
def send_final (oracle : Nat → List Nat → Except Nat String) (u : Upload) :
    Except Nat Upload :=
  match finish_part_upload u with
  | Except.error e => Except.error e
  | Except.ok (u2, _) =>
    if u2.data = [] then Except.ok u2
    else
      match oracle (u2.info.parts.length + 1) u2.data with
      | Except.error e => Except.error e
      | Except.ok tag =>
        Except.ok { u2 with info := { u2.info with parts := u2.info.parts ++ [tag] } }

/-- `UploadCompleteError` (src/upload.rs:40-46). -/
inductive UploadCompleteError : Type
  | finalPartFailed (e : Nat)
  | completionFailed (e : Nat)
deriving DecidableEq

/-- The `CompletedPart` list built by `Upload::complete`
(src/upload.rs:222-231): tag at position `ix` becomes part number `ix + 1`. -/
def completedParts (tags : List String) : List (Nat × String) :=
  tags.enum.map fun p => (p.1 + 1, p.2)

/-- `Upload::complete` (src/upload.rs:205-248): flush the final part, then
issue `complete_multipart_upload` with the full ordered part list.
`completeCall` is the store's response to that call. -/
def complete (oracle : Nat → List Nat → Except Nat String)
    (completeCall : List (Nat × String) → Except Nat Unit) (u : Upload) :
    Except UploadCompleteError Unit :=
  match send_final oracle u with
  | Except.error e => Except.error (UploadCompleteError.finalPartFailed e)
  | Except.ok u2 =>
    match completeCall (completedParts u2.info.parts) with
    | Except.error e => Except.error (UploadCompleteError.completionFailed e)
    | Except.ok _ => Except.ok ()

/-- A fresh `Upload` as built by `Upload::new_with_size`
(src/upload.rs:87-114), with concrete bucket, key and upload id. -/
def mkUpload (size : Nat) : Upload :=
  { info := { bucket := "b", key := "k", size_per_upload := size, upload_id := "id",
              parts := [], uploaded_bytes := 0 },
    data := [], upload_task := none }

/-- A store that tags each part with the decimal rendering of its first
byte, making it visible which bytes each committed part carried. -/
def tagOracle : Nat → List Nat → Except Nat String :=
  fun _ body => Except.ok (toString (body.headD 0))

theorem chunkListGo_nil (cs f : Nat) : chunkListGo f cs [] = [] := by
  cases f with
  | zero => rfl
  | succ f =>
    simp only [chunkListGo]
    rw [if_neg]
    rintro ⟨h1, h2⟩
    simp only [List.length_nil] at h2
    omega

theorem chunkListGo_congr (cs : Nat) :
    ∀ f g l, l.length ≤ f → l.length ≤ g → chunkListGo f cs l = chunkListGo g cs l := by
  intro f
  induction f with
  | zero =>
    intro g l hf _
    have hl : l = [] := List.length_eq_zero.mp (by omega)
    subst hl
    rw [chunkListGo_nil, chunkListGo_nil]
  | succ f ih =>
    intro g l hf hg
    cases g with
    | zero =>
      have hl : l = [] := List.length_eq_zero.mp (by omega)
      subst hl
      rw [chunkListGo_nil, chunkListGo_nil]
    | succ g =>
      simp only [chunkListGo]
      by_cases hc : 0 < cs ∧ cs ≤ l.length
      · rw [if_pos hc, if_pos hc]
        have hd : (l.drop cs).length = l.length - cs := by simp
        exact congrArg _ (ih g (l.drop cs) (by omega) (by omega))
      · rw [if_neg hc, if_neg hc]

theorem chunkList_cons (cs : Nat) (l : List Nat) (hcs : 0 < cs) (hle : cs ≤ l.length) :
    chunkList cs l = l.take cs :: chunkList cs (l.drop cs) := by
  unfold chunkList
  obtain ⟨n, hn⟩ : ∃ n, l.length = n + 1 := ⟨l.length - 1, by omega⟩
  rw [hn]
  simp only [chunkListGo]
  rw [if_pos ⟨hcs, hle⟩]
  refine congrArg _ (chunkListGo_congr cs n (l.drop cs).length (l.drop cs) ?_ (le_refl _))
  simp
  omega

theorem chunkList_eq_nil (cs : Nat) (l : List Nat) (h : l.length < cs) :
    chunkList cs l = [] := by
  unfold chunkList
  rcases hf : l.length with _ | n
  · rfl
  · simp only [chunkListGo]
    rw [if_neg]
    rintro ⟨_, hc⟩
    omega

theorem chunkListGo_length (cs : Nat) (hcs : 0 < cs) :
    ∀ f l, l.length ≤ f → (chunkListGo f cs l).length = l.length / cs := by
  intro f
  induction f with
  | zero =>
    intro l hf
    have hl : l.length = 0 := by omega
    simp [chunkListGo, hl]
  | succ f ih =>
    intro l hf
    by_cases hc : cs ≤ l.length
    · simp only [chunkListGo]
      rw [if_pos ⟨hcs, hc⟩]
      simp only [List.length_cons]
      rw [ih (l.drop cs) (by simp; omega)]
      simp only [List.length_drop]
      rw [Nat.div_eq_sub_div hcs hc]
    · simp only [chunkListGo]
      rw [if_neg (by rintro ⟨_, h2⟩; omega)]
      rw [Nat.div_eq_of_lt (by omega)]
      rfl

theorem chunkList_length (cs : Nat) (l : List Nat) (hcs : 0 < cs) :
    (chunkList cs l).length = l.length / cs :=
  chunkListGo_length cs hcs l.length l (le_refl _)

theorem chunkListGo_mem (cs : Nat) (hcs : 0 < cs) :
    ∀ f l b, l.length ≤ f → b ∈ chunkListGo f cs l → b.length = cs := by
  intro f
  induction f with
  | zero => intro l b _ hb; simp [chunkListGo] at hb
  | succ f ih =>
    intro l b hf hb
    by_cases hc : cs ≤ l.length
    · simp only [chunkListGo] at hb
      rw [if_pos ⟨hcs, hc⟩] at hb
      rcases List.mem_cons.mp hb with h | h
      · subst h; simp [List.length_take]; omega
      · exact ih (l.drop cs) b (by simp; omega) h
    · simp only [chunkListGo] at hb
      rw [if_neg (by rintro ⟨_, h2⟩; omega)] at hb
      simp at hb

theorem chunkList_mem (cs : Nat) (l : List Nat) (b : List Nat) (hcs : 0 < cs)
    (hb : b ∈ chunkList cs l) : b.length = cs :=
  chunkListGo_mem cs hcs l.length l b (le_refl _) hb

theorem chunkListGo_flatten (cs : Nat) (hcs : 0 < cs) :
    ∀ f l, l.length ≤ f → l.length % cs = 0 → (chunkListGo f cs l).flatten = l := by
  intro f
  induction f with
  | zero =>
    intro l hf _
    have hl : l = [] := List.length_eq_zero.mp (by omega)
    subst hl; rfl
  | succ f ih =>
    intro l hf hmod
    by_cases hc : cs ≤ l.length
    · simp only [chunkListGo]
      rw [if_pos ⟨hcs, hc⟩]
      simp only [List.flatten_cons]
      rw [ih (l.drop cs) (by simp; omega)]
      · exact List.take_append_drop cs l
      · have hdvd : cs ∣ l.length := Nat.dvd_iff_mod_eq_zero.mpr hmod
        have : cs ∣ l.length - cs := Nat.dvd_sub' hdvd dvd_rfl
        simp only [List.length_drop]
        omega
    · have hlt : l.length < cs := by omega
      have h0 : l.length = 0 := by
        rw [Nat.mod_eq_of_lt hlt] at hmod
        exact hmod
      have hl : l = [] := List.length_eq_zero.mp h0
      subst hl
      rw [chunkListGo_nil]
      rfl

theorem chunkList_flatten (cs : Nat) (l : List Nat) (hcs : 0 < cs) (hmod : l.length % cs = 0) :
    (chunkList cs l).flatten = l :=
  chunkListGo_flatten cs hcs l.length l (le_refl _) hmod

theorem chunkList_append (cs : Nat) (hcs : 0 < cs) :
    ∀ k l1 l2, l1.length = k * cs →
      chunkList cs (l1 ++ l2) = chunkList cs l1 ++ chunkList cs l2 := by
  intro k
  induction k with
  | zero =>
    intro l1 l2 h1
    have hl : l1 = [] := List.length_eq_zero.mp (by omega)
    subst hl
    simp [chunkList, chunkListGo]
  | succ k ih =>
    intro l1 l2 h1
    have hc1 : cs ≤ l1.length := by
      rw [h1]
      calc cs = 1 * cs := (one_mul cs).symm
        _ ≤ (k + 1) * cs := Nat.mul_le_mul_right cs (by omega)
    have hc : cs ≤ (l1 ++ l2).length := by simp; omega
    rw [chunkList_cons cs (l1 ++ l2) hcs hc, chunkList_cons cs l1 hcs hc1]
    have htake : (l1 ++ l2).take cs = l1.take cs := by
      rw [List.take_append_eq_append_take]
      rw [Nat.sub_eq_zero_of_le hc1]
      simp
    have hdrop : (l1 ++ l2).drop cs = l1.drop cs ++ l2 := by
      rw [List.drop_append_eq_append_drop]
      rw [Nat.sub_eq_zero_of_le hc1]
      simp
    rw [htake, hdrop]
    simp only [List.cons_append]
    refine congrArg _ (ih (l1.drop cs) l2 ?_)
    simp only [List.length_drop, h1, Nat.succ_mul]
    omega

theorem consOut_consList (x : Except Nat (List Nat)) (l : List (Except Nat (List Nat)))
    (o : SVOut) : SVOut.consOut x (SVOut.consList l o) = SVOut.consList (x :: l) o := by
  cases o <;> rfl

theorem consList_nil (o : SVOut) : SVOut.consList [] o = o := by
  cases o <;> rfl

theorem svGo_pull_chunk (cs f : Nat) (b : List Nat) (rest : List SVEvent) (count : Option Nat)
    (hcs : 0 < cs) (hc : count ≠ some 0) :
    svGo cs (f + 1) [] count (SVEvent.chunk b :: rest) = svGo cs f b count rest := by
  have h0 : ¬ cs = 0 := by omega
  simp [svGo, h0, hc]

theorem svGo_pull_fail (cs f : Nat) (e : Nat) (rest : List SVEvent) (count : Option Nat)
    (hcs : 0 < cs) (hc : count ≠ some 0) :
    svGo cs (f + 1) [] count (SVEvent.fail e :: rest) =
      some (SVOut.ended [Except.error e]) := by
  have h0 : ¬ cs = 0 := by omega
  simp [svGo, h0, hc]

theorem svGo_exhaust (cs : Nat) (hcs : 0 < cs) :
    ∀ fuel buf events, events.all isChunk = true →
      buf.length + (flatEvents events).length + events.length + 1 ≤ fuel →
      svGo cs fuel buf none events =
        some (if (buf.length + (flatEvents events).length) % cs = 0
          then SVOut.ended (List.map Except.ok (chunkList cs (buf ++ flatEvents events)))
          else SVOut.panicked "stream ended unexpectedly"
            (List.map Except.ok (chunkList cs (buf ++ flatEvents events)))) := by
  intro fuel
  induction fuel with
  | zero => intro buf events _ hf; omega
  | succ f ih =>
    intro buf events hall hf
    by_cases hble : cs ≤ buf.length
    · simp only [svGo]
      rw [if_pos hble]
      rw [ih (buf.drop cs) events hall (by simp only [List.length_drop]; omega)]
      have hmodeq : ((buf.drop cs).length + (flatEvents events).length) % cs
          = (buf.length + (flatEvents events).length) % cs := by
        simp only [List.length_drop]
        have harr : buf.length + (flatEvents events).length
            = ((buf.length - cs) + (flatEvents events).length) + cs := by omega
        rw [harr, Nat.add_mod_right]
      have hck : chunkList cs (buf ++ flatEvents events)
          = buf.take cs :: chunkList cs (buf.drop cs ++ flatEvents events) := by
        rw [chunkList_cons cs _ hcs (by simp only [List.length_append]; omega)]
        have htake : (buf ++ flatEvents events).take cs = buf.take cs := by
          rw [List.take_append_eq_append_take, Nat.sub_eq_zero_of_le hble]
          simp
        have hdrop : (buf ++ flatEvents events).drop cs = buf.drop cs ++ flatEvents events := by
          rw [List.drop_append_eq_append_drop, Nat.sub_eq_zero_of_le hble]
          simp
        rw [htake, hdrop]
      rw [hmodeq, hck]
      by_cases hmod : (buf.length + (flatEvents events).length) % cs = 0
      · rw [if_pos hmod, if_pos hmod]
        simp [SVOut.consOut]
      · rw [if_neg hmod, if_neg hmod]
        simp [SVOut.consOut]
    · cases events with
      | nil =>
        simp only [svGo]
        rw [if_neg hble]
        simp only [flatEvents, List.length_nil, Nat.add_zero, List.append_nil,
          reduceCtorEq, if_false]
        by_cases hbe : buf = []
        · subst hbe
          simp [chunkList_eq_nil cs [] (by simp; omega)]
        · have hne : buf.isEmpty = false := by
            cases buf with
            | nil => exact absurd rfl hbe
            | cons x xs => rfl
          have hpos : 0 < buf.length := List.length_pos.mpr hbe
          have hlt : buf.length < cs := by omega
          have hmodne : ¬ buf.length % cs = 0 := by
            rw [Nat.mod_eq_of_lt hlt]
            omega
          rw [hne]
          simp [chunkList_eq_nil cs buf hlt, hmodne]
      | cons ev rest =>
        cases ev with
        | chunk b =>
          have hall2 : rest.all isChunk = true := by
            simp only [List.all_cons, isChunk, Bool.true_and] at hall
            exact hall
          simp only [svGo]
          rw [if_neg hble]
          simp only [reduceCtorEq, if_false]
          rw [ih (buf ++ b) rest hall2 (by
            simp only [List.length_append, flatEvents, List.length_cons] at hf ⊢
            omega)]
          simp only [flatEvents]
          rw [show (buf ++ b).length + (flatEvents rest).length
              = buf.length + (b ++ flatEvents rest).length by
            simp only [List.length_append]; omega]
          rw [List.append_assoc]
        | fail e =>
          simp [List.all_cons, isChunk] at hall

theorem svGo_drain (cs : Nat) (hcs : 0 < cs) :
    ∀ m c fuel buf events, buf.length = m * cs → m < c →
      svGo cs fuel buf (some c) events =
        (svGo cs (fuel - m) [] (some (c - m)) events).map
          (SVOut.consList (List.map Except.ok (chunkList cs buf))) := by
  intro m
  induction m with
  | zero =>
    intro c fuel buf events hbl _
    have hb : buf = [] := List.length_eq_zero.mp (by simpa using hbl)
    subst hb
    rw [chunkList_eq_nil cs [] (by simp; omega)]
    simp only [Nat.sub_zero, List.map_nil]
    cases h : svGo cs fuel [] (some c) events with
    | none => rfl
    | some o => simp [consList_nil]
  | succ m ih =>
    intro c fuel buf events hbl hmc
    cases fuel with
    | zero => simp [svGo]
    | succ f =>
      have hc1 : cs ≤ buf.length := by rw [hbl, Nat.succ_mul]; omega
      simp only [svGo]
      rw [if_pos hc1]
      rw [if_neg (show ¬(c - 1 = 0) by omega)]
      rw [ih (c - 1) f (buf.drop cs) events
        (by simp only [List.length_drop, hbl, Nat.succ_mul]; omega) (by omega)]
      rw [chunkList_cons cs buf hcs hc1]
      rw [show f - m = f + 1 - (m + 1) by omega]
      rw [show c - 1 - m = c - (m + 1) by omega]
      cases hX : svGo cs (f + 1 - (m + 1)) [] (some (c - (m + 1))) events with
      | none => rfl
      | some o => simp [consOut_consList]

theorem svGo_count_exact (cs : Nat) (hcs : 0 < cs) :
    ∀ c fuel buf events, buf.length = c * cs → 0 < c → c ≤ fuel →
      svGo cs fuel buf (some c) events =
        some (SVOut.ended (List.map Except.ok (chunkList cs buf))) := by
  intro c
  induction c with
  | zero => intro fuel buf events _ h0 _; omega
  | succ c ih =>
    intro fuel buf events hbl _ hcf
    obtain ⟨f, rfl⟩ : ∃ f, fuel = f + 1 := ⟨fuel - 1, by omega⟩
    have hc1 : cs ≤ buf.length := by rw [hbl, Nat.succ_mul]; omega
    simp only [svGo]
    rw [if_pos hc1]
    by_cases hc0 : c = 0
    · subst hc0
      rw [if_pos (by omega)]
      rw [chunkList_cons cs buf hcs hc1]
      have hdrop : buf.drop cs = [] := by
        apply List.eq_nil_of_length_eq_zero
        simp only [List.length_drop, hbl]
        omega
      rw [hdrop, chunkList_eq_nil cs [] (by simp; omega)]
      simp [SVOut.consOut]
    · rw [if_neg (show ¬(c + 1 - 1 = 0) by omega)]
      rw [show c + 1 - 1 = c by omega]
      rw [ih f (buf.drop cs) events
        (by simp only [List.length_drop, hbl, Nat.succ_mul]; omega) (by omega) (by omega)]
      rw [chunkList_cons cs buf hcs hc1]
      simp [SVOut.consOut]

theorem svfInner_append (L : List (List Nat)) (rest : List (Except Nat (List Nat)))
    (si fc : Nat) :
    svfInner (List.map Except.ok L ++ rest) si fc =
      ⟨List.map Except.ok L
          ++ (svfInner rest (si + L.length) (if L.isEmpty then fc else 0)).items,
        (svfInner rest (si + L.length) (if L.isEmpty then fc else 0)).startIndex,
        (svfInner rest (si + L.length) (if L.isEmpty then fc else 0)).failureCount,
        (svfInner rest (si + L.length) (if L.isEmpty then fc else 0)).exit⟩ := by
  induction L generalizing si fc with
  | nil => rfl
  | cons x L ih =>
    simp only [List.map_cons, List.cons_append, svfInner, List.append_eq]
    rw [ih (si + 1) 0]
    simp only [List.isEmpty_cons, Bool.false_eq_true, if_false, ite_self, List.length_cons]
    rw [show si + 1 + L.length = si + (L.length + 1) by omega]

theorem svfInner_oks (L : List (List Nat)) (si fc : Nat) :
    svfInner (List.map Except.ok L) si fc =
      ⟨List.map Except.ok L, si + L.length, if L.isEmpty then fc else 0,
        InnerExit.cleanEnd⟩ := by
  have h := svfInner_append L [] si fc
  rw [List.append_nil] at h
  rw [h]
  simp [svfInner]

theorem svfGo_allfail_aux (errs : Nat → Nat) (cs si : Nat) (endIndex : Option Nat)
    (hcs : 0 < cs) (hend : ∀ e, endIndex = some e → si < e) :
    ∀ n, 1 ≤ n → n ≤ 5 → ∀ fuel a, n ≤ fuel →
      svfGo (fun a2 _ => Except.ok [SVEvent.fail (errs a2)]) cs endIndex fuel a si (5 - n) =
        some ⟨[Except.error (VecStreamError.byteStreamError (errs (a + n - 1)))], si, 5,
          List.replicate n (rangeHeader si endIndex cs)⟩ := by
  have hcount : (endIndex.map fun e => e - si) ≠ some 0 := by
    cases endIndex with
    | none => simp
    | some e =>
      have := hend e rfl
      simp
      omega
  intro n
  induction n with
  | zero => intro h1; exact absurd h1 (by omega)
  | succ n ih =>
    intro _ hn5 fuel a hfuel
    obtain ⟨f, rfl⟩ : ∃ f, fuel = f + 1 := ⟨fuel - 1, by omega⟩
    simp only [svfGo]
    rw [svGo_pull_fail cs f (errs a) [] (endIndex.map fun e => e - si) hcs hcount]
    simp only [SVOut.items, svfInner]
    by_cases hn : n = 0
    · subst hn
      rw [if_pos (by omega)]
      simp only [List.replicate]
      rfl
    · rw [if_neg (show ¬(5 ≤ 5 - (n + 1) + 1) by omega)]
      rw [show 5 - (n + 1) + 1 = 5 - n by omega]
      rw [ih (by omega) (by omega) f (a + 1) (by omega)]
      rw [show a + 1 + n - 1 = a + (n + 1) - 1 by omega]
      rw [show (List.replicate (n + 1) (rangeHeader si endIndex cs))
          = rangeHeader si endIndex cs :: List.replicate n (rangeHeader si endIndex cs)
        from List.replicate_succ _ _]
      rfl

theorem chunkList_isEmpty_false (cs : Nat) (d : List Nat) (hcs : 0 < cs)
    (hlen : cs ≤ d.length) : (chunkList cs d).isEmpty = false := by
  rw [chunkList_cons cs d hcs hlen]
  rfl

/-- C2: a reader that fails after delivering `k` of the `n` records of `obj`
and then succeeds on the re-issued read makes `stream_vecs_from` deliver all
`n` records exactly once, in order; the second ranged read is issued exactly
at record `k`, and the failure counter ends at zero. -/
theorem stream_vecs_from_resumes_at_first_undelivered (obj : List Nat) (n k cs e0 : Nat)
    (hcs : 0 < cs) (hlen : obj.length = n * cs) (hk : k < n) (fuel : Nat)
    (hfuel : n + 2 ≤ fuel) :
    stream_vecs_from
      (fun a _ => if a = 0
        then Except.ok [SVEvent.chunk (obj.take (k * cs)), SVEvent.fail e0]
        else Except.ok [SVEvent.chunk (obj.drop (k * cs))])
      0 (some n) cs fuel =
    some ⟨List.map Except.ok (chunkList cs obj), n, 0,
      [rangeHeader 0 (some n) cs, rangeHeader k (some n) cs]⟩ := by
  obtain ⟨g, rfl⟩ : ∃ g, fuel = (g + 1) + 1 := ⟨fuel - 2, by omega⟩
  have hg : n ≤ g := by omega
  have htl : (obj.take (k * cs)).length = k * cs := by
    rw [List.length_take]
    have : k * cs ≤ n * cs := Nat.mul_le_mul_right cs (le_of_lt hk)
    omega
  have hdl : (obj.drop (k * cs)).length = (n - k) * cs := by
    rw [List.length_drop, hlen, Nat.sub_mul]
  have hkchunks : (chunkList cs (obj.take (k * cs))).length = k := by
    rw [chunkList_length cs _ hcs, htl, Nat.mul_div_cancel k hcs]
  have hdchunks : (chunkList cs (obj.drop (k * cs))).length = n - k := by
    rw [chunkList_length cs _ hcs, hdl, Nat.mul_div_cancel (n - k) hcs]
  rw [stream_vecs_from]
  simp only [svfGo, reduceIte, Option.map_some', Nat.sub_zero]
  rw [svGo_pull_chunk cs (g + 1) _ _ (some n) hcs (by simp; omega)]
  rw [svGo_drain cs hcs k n (g + 1) _ _ htl hk]
  rw [show g + 1 - k = (g - k) + 1 by omega]
  rw [svGo_pull_fail cs (g - k) e0 [] (some (n - k)) hcs (by simp; omega)]
  simp only [Option.map_some', SVOut.consList, SVOut.items, List.append_nil]
  rw [svfInner_append (chunkList cs (obj.take (k * cs))) [Except.error e0] 0 0]
  simp only [svfInner, ite_self, hkchunks, Nat.zero_add]
  rw [if_neg (show ¬(5 ≤ 0 + 1) by omega)]
  simp only [List.append_nil]
  rw [if_neg (show ¬(1 = 0) by omega)]
  simp only []
  rw [svGo_pull_chunk cs g _ _ (some (n - k)) hcs (by simp; omega)]
  rw [svGo_count_exact cs hcs (n - k) g _ [] hdl (by omega) (by omega)]
  simp only [SVOut.items]
  rw [svfInner_oks (chunkList cs (obj.drop (k * cs))) k 1]
  rw [chunkList_isEmpty_false cs _ hcs (by rw [hdl]; calc cs = 1 * cs := (one_mul cs).symm
    _ ≤ (n - k) * cs := Nat.mul_le_mul_right cs (by omega))]
  simp only [Bool.false_eq_true, if_false, hdchunks]
  rw [show k + (n - k) = n by omega]
  rw [← List.map_append, ← chunkList_append cs hcs k _ _ htl, List.take_append_drop]

/-- C3: a reader whose every ranged read fails at the record level makes
`stream_vecs_from` yield a terminal error after exactly 5 consecutive
failures (5 issued reads, all at the unchanged `start_index`), and the
failure counter resets to zero on a successful chunk, so a failure right
after a success counts 1, not an accumulated total. -/
theorem stream_vecs_from_five_failure_threshold (errs : Nat → Nat) (cs si : Nat)
    (end_index : Option Nat) (hcs : 0 < cs)
    (hend : ∀ e, end_index = some e → si < e) (fuel : Nat) (hfuel : 5 ≤ fuel) :
    stream_vecs_from (fun a _ => Except.ok [SVEvent.fail (errs a)]) si end_index cs fuel =
        some ⟨[Except.error (VecStreamError.byteStreamError (errs 4))], si, 5,
          List.replicate 5 (rangeHeader si end_index cs)⟩ ∧
      ∀ v rest si2 fc2 e2,
        (svfInner (Except.ok v :: Except.error e2 :: rest) si2 fc2).failureCount = 1 ∧
        (svfInner (Except.ok v :: Except.error e2 :: rest) si2 fc2).exit = InnerExit.retry := by
  constructor
  · rw [stream_vecs_from]
    have h := svfGo_allfail_aux errs cs si end_index hcs hend 5 (by omega) (by omega) fuel 0 hfuel
    rw [show (5 : Nat) - 5 = 0 by omega] at h
    rw [h]
  · intro v rest si2 fc2 e2
    simp only [svfInner]
    rw [if_neg (show ¬(5 ≤ 0 + 1) by omega)]
    exact ⟨rfl, rfl⟩

/-- C4: on an all-chunk input whose total byte length is `m * cs`, an
unbounded `stream_vecs` yields exactly `length / cs` record chunks, each of
exactly `cs` bytes, in input order, and their concatenation is the input. -/
theorem stream_vecs_exact_multiple (cs m : Nat) (events : List SVEvent) (hcs : 0 < cs)
    (hall : events.all isChunk = true) (hlen : (flatEvents events).length = m * cs)
    (fuel : Nat) (hfuel : (flatEvents events).length + events.length + 1 ≤ fuel) :
    stream_vecs events cs none fuel =
        some (SVOut.ended (List.map Except.ok (chunkList cs (flatEvents events)))) ∧
      (chunkList cs (flatEvents events)).length = (flatEvents events).length / cs ∧
      (∀ b ∈ chunkList cs (flatEvents events), b.length = cs) ∧
      (chunkList cs (flatEvents events)).flatten = flatEvents events := by
  have hmod : (flatEvents events).length % cs = 0 := by
    rw [hlen]
    exact Nat.mul_mod_left m cs
  refine ⟨?_, chunkList_length cs _ hcs, fun b hb => chunkList_mem cs _ b hcs hb,
    chunkList_flatten cs _ hcs hmod⟩
  rw [stream_vecs]
  rw [svGo_exhaust cs hcs fuel [] events hall (by simpa using hfuel)]
  simp [hmod]

/-- C5: on an all-chunk input whose total byte length is not a multiple of
`cs`, reading `stream_vecs` to exhaustion hits the fatal
"stream ended unexpectedly" panic, and every chunk yielded before it has
exactly `cs` bytes — no truncated final chunk is yielded. -/
theorem stream_vecs_unaligned_panics (cs : Nat) (events : List SVEvent) (hcs : 0 < cs)
    (hall : events.all isChunk = true) (hlen : (flatEvents events).length % cs ≠ 0)
    (fuel : Nat) (hfuel : (flatEvents events).length + events.length + 1 ≤ fuel) :
    stream_vecs events cs none fuel =
        some (SVOut.panicked "stream ended unexpectedly"
          (List.map Except.ok (chunkList cs (flatEvents events)))) ∧
      ∀ b ∈ chunkList cs (flatEvents events), b.length = cs := by
  refine ⟨?_, fun b hb => chunkList_mem cs _ b hcs hb⟩
  rw [stream_vecs]
  rw [svGo_exhaust cs hcs fuel [] events hall (by simpa using hfuel)]
  simp [hlen]

/-- C7: any successful `stream_vecs_from` run issues its ranged read with
`start_pos = start_index * chunk_size`, as the unbounded tail `"bytes=start_pos-"`
when `end_index` is absent and as the inclusive span
`"bytes=start_pos-end_pos"` with `end_pos = end_index * chunk_size - 1` when
it is present (stated for any attempt state, so it covers retries too). -/
theorem stream_vecs_from_range_convention (si cs : Nat) (end_index : Option Nat)
    (reads : Nat → String → Except Nat (List SVEvent)) (fuel a fc : Nat) (res : SVFResult)
    (h1 : si * cs < USIZE_MOD)
    (h2 : ∀ e, end_index = some e → 0 < e * cs ∧ e * cs < USIZE_MOD)
    (hrun : svfGo reads cs end_index (fuel + 1) a si fc = some res) :
    (end_index = none →
      res.requests.head? = some ("bytes=" ++ toString (si * cs) ++ "-")) ∧
    (∀ e, end_index = some e →
      res.requests.head?
        = some ("bytes=" ++ toString (si * cs) ++ "-" ++ toString (e * cs - 1))) := by
  have hmu : usizeMul si cs = si * cs := Nat.mod_eq_of_lt h1
  have hhead : res.requests.head? = some (rangeHeader si end_index cs) := by
    simp only [svfGo] at hrun
    repeat' split at hrun
    all_goals first
      | exact Option.noConfusion hrun
      | (simp only [Option.some.injEq] at hrun; subst hrun; rfl)
  constructor
  · intro he
    subst he
    rw [hhead]
    simp only [rangeHeader]
    rw [hmu]
  · intro e he
    subst he
    obtain ⟨he1, he2⟩ := h2 e rfl
    have ha : e * cs % USIZE_MOD = e * cs := Nat.mod_eq_of_lt he2
    have hb : (1 : Nat) % USIZE_MOD = 1 :=
      Nat.mod_eq_of_lt (by norm_num [USIZE_MOD])
    have hsub : usizeSub (usizeMul e cs) 1 = e * cs - 1 := by
      show (USIZE_MOD + (e * cs % USIZE_MOD) % USIZE_MOD - 1 % USIZE_MOD) % USIZE_MOD
        = e * cs - 1
      rw [ha, ha, hb]
      rw [show USIZE_MOD + e * cs - 1 = (e * cs - 1) + USIZE_MOD by omega]
      rw [Nat.add_mod_right]
      exact Nat.mod_eq_of_lt (by omega)
    rw [hhead]
    simp only [rangeHeader]
    rw [hmu, hsub]

theorem svfInner_shape (items : List (Except Nat (List Nat))) (si fc : Nat) :
    (∃ A, (svfInner items si fc).items = List.map Except.ok A ∧
      (svfInner items si fc).exit ≠ InnerExit.hardFail) ∨
    (∃ A e, (svfInner items si fc).items
        = List.map Except.ok A ++ [Except.error (VecStreamError.byteStreamError e)] ∧
      (svfInner items si fc).exit = InnerExit.hardFail) := by
  induction items generalizing si fc with
  | nil => exact Or.inl ⟨[], rfl, by simp [svfInner]⟩
  | cons x rest ih =>
    cases x with
    | ok v =>
      rcases ih (si + 1) 0 with ⟨A, hA, hex⟩ | ⟨A, e, hA, hex⟩
      · exact Or.inl ⟨v :: A, by simp [svfInner, hA], by simp [svfInner, hex]⟩
      · exact Or.inr ⟨v :: A, e, by simp [svfInner, hA], by simp [svfInner, hex]⟩
    | error e =>
      by_cases h5 : 5 ≤ fc + 1
      · exact Or.inr ⟨[], e, by simp [svfInner, h5], by simp [svfInner, h5]⟩
      · exact Or.inl ⟨[], by simp [svfInner, h5], by simp [svfInner, h5]⟩

theorem svfGo_shape (reads : Nat → String → Except Nat (List SVEvent)) (cs : Nat)
    (end_index : Option Nat) :
    ∀ fuel a si fc r, svfGo reads cs end_index fuel a si fc = some r →
      ∃ A t, r.items = List.map Except.ok A ++ t ∧
        (t = [] ∨ ∃ e, t = [Except.error e]) := by
  intro fuel
  induction fuel with
  | zero => intro a si fc r h; exact Option.noConfusion h
  | succ f ih =>
    intro a si fc r h
    simp only [svfGo] at h
    split at h
    · simp only [Option.some.injEq] at h
      subst h
      exact ⟨[], [Except.error (VecStreamError.streamInitFailed _)], rfl, Or.inr ⟨_, rfl⟩⟩
    · split at h
      · exact Option.noConfusion h
      · rename_i out hsv
        rcases svfInner_shape out.items si fc with ⟨A, hA, hAex⟩ | ⟨A, e, hA, hAex⟩
        · split at h
          · rename_i hex
            exact absurd hex hAex
          · split at h
            · exact Option.noConfusion h
            · rename_i rest hrec
              simp only [Option.some.injEq] at h
              subst h
              obtain ⟨B, t, hB, ht⟩ := ih (a + 1) _ _ rest hrec
              refine ⟨A ++ B, t, ?_, ht⟩
              simp only [hA, hB, List.map_append, List.append_assoc]
          · split at h
            · simp only [Option.some.injEq] at h
              subst h
              exact ⟨A, [], by simp [hA], Or.inl rfl⟩
            · exact Option.noConfusion h
        · split at h
          · simp only [Option.some.injEq] at h
            subst h
            exact ⟨A, [Except.error (VecStreamError.byteStreamError e)], hA, Or.inr ⟨_, rfl⟩⟩
          · rename_i hex
            simp [hAex] at hex
          · rename_i hex
            simp [hAex] at hex

theorem consumer_producer_oks (A : List (List Nat)) :
    consumerItems (producerSends (List.map Except.ok A)) = List.map Except.ok A := by
  induction A with
  | nil => rfl
  | cons x A ih =>
    simp only [List.map_cons, producerSends]
    simp only [consumerItems, List.takeWhile_cons, Option.isSome_some, if_true,
      List.filterMap_cons, id, List.append_eq] at ih ⊢
    rw [ih]

theorem consumer_producer_err (A : List (List Nat)) (e : VecStreamError) :
    consumerItems (producerSends (List.map Except.ok A ++ [Except.error e])) =
      List.map Except.ok A ++ [Except.error e] := by
  induction A with
  | nil => rfl
  | cons x A ih =>
    simp only [List.map_cons, List.cons_append, producerSends]
    simp only [consumerItems, List.takeWhile_cons, Option.isSome_some, if_true,
      List.filterMap_cons, id, List.append_eq] at ih ⊢
    rw [ih]

/-- C9: whenever the wrapped `stream_vecs_from` produces an item sequence,
the consumer-facing stream of `concurrent_stream_vecs_from` yields exactly
those items in the same order; the sequence has at most one terminal error,
at its very end, with nothing after it. -/
theorem concurrent_stream_yields_wrapped_items
    (reads : Nat → String → Except Nat (List SVEvent)) (si : Nat) (end_index : Option Nat)
    (cs fuel : Nat) (r : SVFResult)
    (hrun : stream_vecs_from reads si end_index cs fuel = some r) :
    concurrent_stream_vecs_from reads si end_index cs fuel = some r.items ∧
      ∃ A t, r.items = List.map Except.ok A ++ t ∧
        (t = [] ∨ ∃ e, t = [Except.error e]) := by
  have hshape := svfGo_shape reads cs end_index fuel 0 si 0 r hrun
  refine ⟨?_, hshape⟩
  rw [concurrent_stream_vecs_from, hrun]
  obtain ⟨A, t, hA, ht⟩ := hshape
  rcases ht with rfl | ⟨e, rfl⟩
  · rw [Option.map_some']
    rw [hA, List.append_nil, consumer_producer_oks]
  · rw [Option.map_some']
    rw [hA, consumer_producer_err]

theorem sendLoop_below_size (oracle : Nat → List Nat → Except Nat String) :
    ∀ fuel sh u u2 sh2, sendLoop oracle fuel sh u = some (Except.ok (u2, sh2)) →
      u2.data.length < u2.info.size_per_upload := by
  intro fuel
  induction fuel with
  | zero => intro sh u u2 sh2 h; exact Option.noConfusion h
  | succ f ih =>
    intro sh u u2 sh2 h
    simp only [sendLoop] at h
    split at h
    · split at h
      · exact Except.noConfusion (Option.some.inj h)
      · rename_i u3 sh3 hstep
        split at h
        · exact Option.noConfusion h
        · rename_i u4 hsp
          exact ih sh3 u4 u2 sh2 h
    · rename_i hlt
      simp only [Option.some.injEq, Except.ok.injEq, Prod.mk.injEq] at h
      obtain ⟨h1, _⟩ := h
      subst h1
      omega

/-- C10: whenever `Upload::send` returns successfully, the accumulation
buffer holds strictly fewer than `size_per_upload` bytes: the while loop
exits only once the buffer is drained below one part size. -/
theorem send_drains_buffer_below_part_size (oracle : Nat → List Nat → Except Nat String)
    (preFinished : Bool) (u : Upload) (d : List Nat) (u2 : Upload) (sh2 : Bool)
    (h : send oracle preFinished u d = some (Except.ok (u2, sh2))) :
    u2.data.length < u2.info.size_per_upload := by
  simp only [send] at h
  split at h
  · exact Except.noConfusion (Option.some.inj h)
  · rename_i u3 sh3 hstep
    exact sendLoop_below_size oracle (u3.data.length + 1) sh3 u3 u2 sh2 h

theorem sendLoop_one_empty (oracle : Nat → List Nat → Except Nat String) (u : Upload)
    (hd : u.data = []) (hpos : 0 < u.info.size_per_upload) :
    sendLoop oracle (u.data.length + 1) false u = some (Except.ok (u, false)) := by
  simp only [sendLoop]
  rw [if_neg (by rw [hd]; simp only [List.length_nil]; omega)]

/-- C8: an `Upload` that has received zero bytes (empty buffer, no task in
flight, no committed parts) completes without performing any part upload —
the result is the same for every part-upload oracle — and the
multipart-completion call is issued with the empty part list, succeeding
exactly when the store's completion call succeeds.  Zero-byte `send` calls
leave such an `Upload` unchanged. -/
theorem complete_empty_upload_finalizes (u : Upload) (hd : u.data = [])
    (ht : u.upload_task = none) (hp : u.info.parts = []) :
    (∀ oracle preFinished, 0 < u.info.size_per_upload →
      send oracle preFinished u [] = some (Except.ok (u, false))) ∧
    (∀ oracle completeCall,
      complete oracle completeCall u
        = Except.mapError UploadCompleteError.completionFailed (completeCall [])) ∧
    (∀ oracle completeCall, completeCall [] = Except.ok () →
      complete oracle completeCall u = Except.ok ()) := by
  obtain ⟨info, data, task⟩ := u
  obtain ⟨bucket, key, spu, uid, parts, ub⟩ := info
  replace hd : data = [] := hd
  replace ht : task = none := ht
  replace hp : parts = [] := hp
  subst hd
  subst ht
  subst hp
  have hsf : ∀ oracle, send_final oracle
      ⟨⟨bucket, key, spu, uid, [], ub⟩, [], none⟩
        = Except.ok ⟨⟨bucket, key, spu, uid, [], ub⟩, [], none⟩ := by
    intro oracle
    rfl
  refine ⟨?_, ?_, ?_⟩
  · intro oracle preFinished hpos
    simp only [send, finish_part_upload, List.append_nil, Option.isSome_none,
      Bool.false_and, if_neg (Bool.false_ne_true)]
    exact sendLoop_one_empty oracle _ rfl hpos
  · intro oracle completeCall
    simp only [complete, hsf, completedParts, List.enum_nil, List.map_nil]
    cases hcc : completeCall [] with
    | error e => rfl
    | ok v => rfl
  · intro oracle completeCall hcc
    simp only [complete, hsf, completedParts, List.enum_nil, List.map_nil, hcc]

/-- C1 (code bug): a single `send` whose payload crosses the part-size
boundary three times commits only two parts.  With `size_per_upload = 2` and
payload `[10, .., 15]`, the short-circuit in
`something_happened = something_happened || self.finish_part_upload().await?`
skips joining the in-flight part for bytes `[12, 13]`; `start_part_upload`
then overwrites its task handle and reuses part number 2, so after `complete`
the committed parts are `[(1, "10"), (2, "14")]` — two parts, not the three
the claim requires, and bytes `[12, 13]` are lost. -/
theorem upload_send_drops_inflight_part :
    (match send tagOracle false (mkUpload 2) [10, 11, 12, 13, 14, 15] with
      | some (Except.ok (u, _)) =>
        (send_final tagOracle u).map fun v => completedParts v.info.parts
      | _ => Except.error 0) = Except.ok [(1, "10"), (2, "14")] := by
  rfl

/-- C6 counterexample: a store error encountered while reading the object's
body does not propagate: `download_vec` returns success with the
partially-filled (default-initialised) buffer. -/
theorem download_vec_swallows_body_error :
    download_vec 1 (Except.ok ⟨some 2, [Except.error 7]⟩)
      = some (Except.ok (some [0, 0])) := by
  rfl

/-- C6 (amended): `download_vec` maps a `NoSuchKey` store error to the clean
absent result `Ok(None)` and propagates every other error of the
`get_object` request itself; but an error on the body stream is swallowed —
the copy loop stops at the first non-`Ok` chunk and returns the buffer
filled so far as success. -/
theorem download_vec_error_mapping (size_of_t : Nat) :
    (∀ m, download_vec size_of_t (Except.error (S3Error.noSuchKey m))
      = some (Except.ok none)) ∧
    (∀ m, download_vec size_of_t (Except.error (S3Error.other m))
      = some (Except.error (S3Error.other m))) ∧
    (∀ vec offset e rest, copyChunks vec offset (Except.error e :: rest) = some vec) := by
  exact ⟨fun m => rfl, fun m => rfl, fun vec offset e rest => rfl⟩

theorem stream_vecs_from_resumes_witness :
    stream_vecs_from
      (fun a _ => if a = 0
        then Except.ok [SVEvent.chunk (([1, 2, 3, 4] : List Nat).take (1 * 2)),
          SVEvent.fail 9]
        else Except.ok [SVEvent.chunk (([1, 2, 3, 4] : List Nat).drop (1 * 2))])
      0 (some 2) 2 4 =
    some ⟨List.map Except.ok (chunkList 2 [1, 2, 3, 4]), 2, 0,
      [rangeHeader 0 (some 2) 2, rangeHeader 1 (some 2) 2]⟩ :=
  stream_vecs_from_resumes_at_first_undelivered [1, 2, 3, 4] 2 1 2 9 (by decide)
    (by decide) (by decide) 4 (by decide)

theorem stream_vecs_from_five_failure_witness :
    stream_vecs_from (fun a _ => Except.ok [SVEvent.fail a]) 0 none 1 5 =
        some ⟨[Except.error (VecStreamError.byteStreamError 4)], 0, 5,
          List.replicate 5 (rangeHeader 0 none 1)⟩ ∧
      ∀ v rest si2 fc2 e2,
        (svfInner (Except.ok v :: Except.error e2 :: rest) si2 fc2).failureCount = 1 ∧
        (svfInner (Except.ok v :: Except.error e2 :: rest) si2 fc2).exit
          = InnerExit.retry :=
  stream_vecs_from_five_failure_threshold (fun a => a) 1 0 none (by decide)
    (fun e he => Option.noConfusion he) 5 (by decide)

theorem stream_vecs_exact_multiple_witness :
    stream_vecs [SVEvent.chunk [1, 2, 3, 4]] 2 none 8 =
        some (SVOut.ended (List.map Except.ok
          (chunkList 2 (flatEvents [SVEvent.chunk [1, 2, 3, 4]])))) ∧
      (chunkList 2 (flatEvents [SVEvent.chunk [1, 2, 3, 4]])).length
        = (flatEvents [SVEvent.chunk [1, 2, 3, 4]]).length / 2 ∧
      (∀ b ∈ chunkList 2 (flatEvents [SVEvent.chunk [1, 2, 3, 4]]), b.length = 2) ∧
      (chunkList 2 (flatEvents [SVEvent.chunk [1, 2, 3, 4]])).flatten
        = flatEvents [SVEvent.chunk [1, 2, 3, 4]] :=
  stream_vecs_exact_multiple 2 2 [SVEvent.chunk [1, 2, 3, 4]] (by decide) (by decide)
    (by decide) 8 (by decide)

theorem stream_vecs_unaligned_panics_witness :
    stream_vecs [SVEvent.chunk [1, 2, 3]] 2 none 8 =
        some (SVOut.panicked "stream ended unexpectedly"
          (List.map Except.ok (chunkList 2 (flatEvents [SVEvent.chunk [1, 2, 3]])))) ∧
      ∀ b ∈ chunkList 2 (flatEvents [SVEvent.chunk [1, 2, 3]]), b.length = 2 :=
  stream_vecs_unaligned_panics 2 [SVEvent.chunk [1, 2, 3]] (by decide) (by decide)
    (by decide) 8 (by decide)

theorem stream_vecs_from_range_witness :
    ((some 3 : Option Nat) = none →
      (⟨[], 1, 0, ["bytes=2-5"]⟩ : SVFResult).requests.head?
        = some ("bytes=" ++ toString (1 * 2) ++ "-")) ∧
    (∀ e, (some 3 : Option Nat) = some e →
      (⟨[], 1, 0, ["bytes=2-5"]⟩ : SVFResult).requests.head?
        = some ("bytes=" ++ toString (1 * 2) ++ "-" ++ toString (e * 2 - 1))) :=
  stream_vecs_from_range_convention 1 2 (some 3) (fun _ _ => Except.ok []) 0 0 0
    ⟨[], 1, 0, ["bytes=2-5"]⟩ (by decide)
    (fun e he => by
      obtain rfl : (3 : Nat) = e := Option.some.inj he
      exact ⟨by decide, by decide⟩)
    (by decide)

theorem complete_empty_upload_witness :
    send tagOracle false (mkUpload 2) [] = some (Except.ok (mkUpload 2, false)) ∧
    complete tagOracle (fun _ => Except.ok ()) (mkUpload 2) = Except.ok () :=
  ⟨(complete_empty_upload_finalizes (mkUpload 2) rfl rfl rfl).1 tagOracle false
      (by decide),
    (complete_empty_upload_finalizes (mkUpload 2) rfl rfl rfl).2.2 tagOracle
      (fun _ => Except.ok ()) rfl⟩

theorem concurrent_stream_yields_witness :
    concurrent_stream_vecs_from (fun _ _ => Except.ok [SVEvent.chunk [5]]) 0 (some 1) 1 3
        = some ((⟨[Except.ok [5]], 1, 0, ["bytes=0-0"]⟩ : SVFResult).items) ∧
      ∃ A t, (⟨[Except.ok [5]], 1, 0, ["bytes=0-0"]⟩ : SVFResult).items
          = List.map Except.ok A ++ t ∧
        (t = [] ∨ ∃ e, t = [Except.error e]) :=
  concurrent_stream_yields_wrapped_items (fun _ _ => Except.ok [SVEvent.chunk [5]]) 0
    (some 1) 1 3 ⟨[Except.ok [5]], 1, 0, ["bytes=0-0"]⟩ (by decide)

theorem send_drains_buffer_witness :
    (⟨⟨"b", "k", 2, "id", [], 0⟩, [3], some (Except.ok ⟨2, "1"⟩)⟩ : Upload).data.length
      < (⟨⟨"b", "k", 2, "id", [], 0⟩, [3],
          some (Except.ok ⟨2, "1"⟩)⟩ : Upload).info.size_per_upload :=
  send_drains_buffer_below_part_size tagOracle false (mkUpload 2) [1, 2, 3]
    ⟨⟨"b", "k", 2, "id", [], 0⟩, [3], some (Except.ok ⟨2, "1"⟩)⟩ false (by decide)

end VlAwsUtil
